import Mathlib

/-!
Shallow embedding of the tinytasks library (single header `include/tinytasks.h`):
the `TinyTask` cooperative state machine and the `TinyTasksPool` scheduler.

Modelling conventions:
* machine integers (`uint8_t`, `uint16_t`) are `Nat`; no arithmetic here can
  overflow because every increment is guarded by the same assertion the C++
  code performs first (`m_nextFreeTaskId < kMaxNumTasksInPool`);
* a failed `assert(...)` and undefined behaviour (dereferencing an invalid
  iterator or a null pointer) are both modelled by returning `none`;
* `std::function<void()>` work items close over the task and may call its
  public operations, so `Run`'s body is modelled as an arbitrary state
  transformer on the task; the stored `m_lambda` and the `m_progress` float
  are not part of the modelled state since no operation's control flow
  depends on them;
* threads are not executed: spawning `std::thread(&TinyTask::Run, task)` is
  recorded in the slot's thread handle, and the asynchronous mutations a
  running body can perform are over-approximated by the `taskStep` pool
  operation, which rewrites one directory entry arbitrarily.
-/

namespace tinytasks

/-- Status enum of `TinyTask` (declaration order as in the header). -/
inductive Status where
  | PAUSED
  | STOPPED
  | RUNNING
  | COMPLETED
deriving DecidableEq, Repr, Inhabited

/-- State of a `TinyTask` object: atomic status, immutable id, atomic
stop-request flag. (`m_progress` and `m_lambda` carry no control flow and
are omitted; `Run` takes the work item as an explicit state transformer.) -/
structure TinyTask where
  m_status : Status
  m_ID : Nat
  m_isStopping : Bool
deriving DecidableEq, Repr, Inhabited

/-- The `TinyTask(const uint16_t id)` constructor: status `PAUSED`,
`m_isStopping` false. (The lambda-taking constructor initialises the same
modelled fields.) -/
def TinyTask.mkWithID (id : Nat) : TinyTask :=
  { m_status := Status.PAUSED, m_ID := id, m_isStopping := false }

/-- `GetID()`. -/
def TinyTask.GetID (t : TinyTask) : Nat := t.m_ID

/-- `GetStatus()`. -/
def TinyTask.GetStatus (t : TinyTask) : Status := t.m_status

/-- `IsRunning()`. -/
def TinyTask.IsRunning (t : TinyTask) : Bool := decide (t.m_status = Status.RUNNING)

/-- `IsPaused()`. -/
def TinyTask.IsPaused (t : TinyTask) : Bool := decide (t.m_status = Status.PAUSED)

/-- `IsStopping()`. -/
def TinyTask.IsStopping (t : TinyTask) : Bool := t.m_isStopping

/-- `HasStopped()`. -/
def TinyTask.HasStopped (t : TinyTask) : Bool := decide (t.m_status = Status.STOPPED)

/-- `HasCompleted()`. -/
def TinyTask.HasCompleted (t : TinyTask) : Bool := decide (t.m_status = Status.COMPLETED)

/-- `Pause()`: `assert(m_status == RUNNING)` then `m_status = PAUSED`.
Assertion failure is `none`. -/
def TinyTask.Pause (t : TinyTask) : Option TinyTask :=
  if t.m_status = Status.RUNNING then
    some { t with m_status := Status.PAUSED }
  else none

/-- `Resume()`: `assert(m_status == PAUSED)` then `m_status = RUNNING`. -/
def TinyTask.Resume (t : TinyTask) : Option TinyTask :=
  if t.m_status = Status.PAUSED then
    some { t with m_status := Status.RUNNING }
  else none

/-- `Stop()`: `assert(m_status == RUNNING || m_status == PAUSED)`;
`if(IsPaused()) Resume();` then `m_isStopping = true`. -/
def TinyTask.Stop (t : TinyTask) : Option TinyTask :=
  if t.m_status = Status.RUNNING ∨ t.m_status = Status.PAUSED then
    match (if t.IsPaused then t.Resume else some t) with
    | some t1 => some { t1 with m_isStopping := true }
    | none => none
  else none

/-- The epilogue of `Run()` after `m_lambda()` returns: if `IsStopping()`
then clear the flag and set `STOPPED`, else set `COMPLETED`. -/
def runEpilogue (t : TinyTask) : TinyTask :=
  if t.m_isStopping then
    { t with m_isStopping := false, m_status := Status.STOPPED }
  else
    { t with m_status := Status.COMPLETED }

/-- `Run()`: set status `RUNNING`, invoke the work item synchronously
(modelled as a state transformer `body` standing for `m_lambda`, which may
call the task's public operations), then the epilogue. -/
def TinyTask.Run (body : TinyTask → TinyTask) (t : TinyTask) : TinyTask :=
  runEpilogue (body { t with m_status := Status.RUNNING })

/-- The atomic task-level steps a caller or the task body can take through
the public interface: `Pause`, `Resume`, `Stop`, the two halves of `Run`
(status write before the body; epilogue after it), and the operations that
touch only unmodelled fields (`SetLambda`, `SetProgress`). -/
inductive TaskOp where
  | pause
  | resume
  | stop
  | runStart
  | runFinish
  | setLambda
  | setProgress
deriving DecidableEq, Repr

/-- Apply one task-level step; `none` when the operation's assertion fails. -/
def applyTaskOp : TaskOp → TinyTask → Option TinyTask
  | TaskOp.pause, t => t.Pause
  | TaskOp.resume, t => t.Resume
  | TaskOp.stop, t => t.Stop
  | TaskOp.runStart, t => some { t with m_status := Status.RUNNING }
  | TaskOp.runFinish, t => some (runEpilogue t)
  | TaskOp.setLambda, t => some t
  | TaskOp.setProgress, t => some t

/-- Run a sequence of task-level steps; `none` as soon as one fails. -/
def runTaskOps : List TaskOp → TinyTask → Option TinyTask
  | [], t => some t
  | op :: ops, t =>
    match applyTaskOp op t with
    | some t1 => runTaskOps ops t1
    | none => none

namespace constants

/-- `kMaxNumThreadsInPool = UINT8_MAX`. -/
def kMaxNumThreadsInPool : Nat := 255

/-- `kMinNumThreadsInPool`. -/
def kMinNumThreadsInPool : Nat := 2

/-- `kMaxNumTasksInPool = UINT16_MAX`. -/
def kMaxNumTasksInPool : Nat := 65535

end constants

/-- What a pool worker thread handle in `m_threads[i]` was spawned to do:
either one of the no-op threads from `InitThreads` (`[]{}`), or
`std::thread(&TinyTask::Run, task)` for the task with the recorded id. -/
inductive ThreadHandle where
  | initThread
  | runThread (taskId : Nat)
deriving DecidableEq, Repr, Inhabited

/-- One worker slot: the entry of `m_threads` and the entry of
`m_threadsTasks` at the same index (the two vectors are always the same
length and are indexed together in the header). `task = none` models the
`nullptr` entries set by `InitThreadsTasks`. -/
structure Slot where
  thread : ThreadHandle
  task : Option Nat
deriving DecidableEq, Repr, Inhabited

/-- The directory `std::map<uint16_t, TinyTask*> m_tasks` as an association
list; the stored value is the pointer: `some t` a valid pointer to a task in
state `t`, `none` a null pointer (only ever stored by teardown code). -/
abbrev Dir : Type := List (Nat × Option TinyTask)

/-- `m_tasks.find(key)`: `none` is the end iterator (key absent), `some ptr`
the stored pointer. -/
def dirFind : Dir → Nat → Option (Option TinyTask)
  | [], _ => none
  | (k, v) :: rest, key => if k = key then some v else dirFind rest key

/-- `m_tasks.insert(std::pair(key, task))`: like `std::map::insert`, does
nothing when the key is already present. -/
def dirInsert (dir : Dir) (key : Nat) (t : TinyTask) : Dir :=
  match dirFind dir key with
  | some _ => dir
  | none => dir ++ [(key, some t)]

/-- Rewrite the task stored under `key` (if present and non-null) by `f`:
over-approximates every mutation a concurrently running body or a caller
holding the `GetTask` pointer can perform on that task. -/
def dirUpdate (dir : Dir) (key : Nat) (f : TinyTask → TinyTask) : Dir :=
  dir.map (fun kv => if kv.1 = key then (kv.1, kv.2.map f) else kv)

/-- State of a `TinyTasksPool`. -/
structure TinyTasksPool where
  m_numThreads : Nat
  m_threadsTasks : List Slot
  m_pendingTasks : List Nat
  m_tasks : Dir
  m_nextFreeTaskId : Nat
deriving DecidableEq, Repr, Inhabited

/-- `SUCCEEDED`, `SUCCEEDED_AT_QUEUE`, `TASK_NOT_FOUND`. -/
inductive Result where
  | SUCCEEDED
  | SUCCEEDED_AT_QUEUE
  | TASK_NOT_FOUND
deriving DecidableEq, Repr, Inhabited

/-- The `TinyTasksPool(uint8_t numThreads)` constructor:
`assert(m_numThreads > 0)`, `InitThreads()` (spawns `numThreads` no-op
threads), `InitThreadsTasks()` (fills `m_threadsTasks` with `nullptr`). -/
def mkTinyTasksPool (numThreads : Nat) : Option TinyTasksPool :=
  if numThreads = 0 then none
  else some
    { m_numThreads := numThreads
      m_threadsTasks := List.replicate numThreads
        { thread := ThreadHandle.initThread, task := none }
      m_pendingTasks := []
      m_tasks := []
      m_nextFreeTaskId := 0 }

/-- `GetNumThreads()`. -/
def TinyTasksPool.GetNumThreads (p : TinyTasksPool) : Nat := p.m_numThreads

/-- `GetNumPendingTasks()`. -/
def TinyTasksPool.GetNumPendingTasks (p : TinyTasksPool) : Nat :=
  p.m_pendingTasks.length

/-- The slot scan in `CreateTask`: bind the new task's id to the first slot
whose `m_threadsTasks` entry is `nullptr`; `none` when every slot is
occupied (the C++ loop then falls through to the queue branch). -/
def bindFirstFree : List Slot → Nat → Option (List Slot)
  | [], _ => none
  | s :: rest, tid =>
    match s.task with
    | none => some ({ s with task := some tid } :: rest)
    | some _ =>
      match bindFirstFree rest tid with
      | some rest1 => some (s :: rest1)
      | none => none

/-- `CreateTask()`: `assert(m_nextFreeTaskId < kMaxNumTasksInPool)`; build
`TinyTask(m_nextFreeTaskId)`, insert it in the directory, bind it to the
first free slot if any, else push it on `m_pendingTasks`; return
`m_nextFreeTaskId++`. -/
def CreateTask (p : TinyTasksPool) : Option (Nat × TinyTasksPool) :=
  if p.m_nextFreeTaskId < constants.kMaxNumTasksInPool then
    let tid := p.m_nextFreeTaskId
    let dir1 := dirInsert p.m_tasks tid (TinyTask.mkWithID tid)
    match bindFirstFree p.m_threadsTasks tid with
    | some slots1 =>
      some (tid, { p with m_threadsTasks := slots1, m_tasks := dir1,
                          m_nextFreeTaskId := tid + 1 })
    | none =>
      some (tid, { p with m_pendingTasks := p.m_pendingTasks ++ [tid],
                          m_tasks := dir1, m_nextFreeTaskId := tid + 1 })
  else none

/-- The assertion guarding the slot-bound dispatch branch of
`SetNewLambdaForTask`:
`threadTask->HasCompleted() || !threadTask->IsRunning() || !threadTask->IsPaused()`. -/
def dispatchAssert (t : TinyTask) : Bool :=
  t.HasCompleted || !t.IsRunning || !t.IsPaused

/-- The slot scan of `SetNewLambdaForTask` over `m_threadsTasks`.
`assert(threadTask)` fails on a `nullptr` slot entry (`none`); on the slot
whose task has the wanted id: check `dispatchAssert`, `SetLambda` (touches
no modelled field), join the old worker and spawn a thread running
`TinyTask::Run` on the slot's task (recorded in the slot's handle).
Result: `some (some slots)` dispatched, `some none` id not bound to any
slot, `none` assertion failure or invalid pointer. -/
def setLambdaLoop (dir : Dir) (tid : Nat) : List Slot → Option (Option (List Slot))
  | [] => some none
  | s :: rest =>
    match s.task with
    | none => none
    | some id =>
      match dirFind dir id with
      | some (some t) =>
        if t.GetID = tid then
          if dispatchAssert t then
            some (some ({ thread := ThreadHandle.runThread id, task := s.task } :: rest))
          else none
        else
          match setLambdaLoop dir tid rest with
          | some (some rest1) => some (some (s :: rest1))
          | some none => some none
          | none => none
      | _ => none

/-- `SetNewLambdaForTask(taskID, newLambda)` (with `assert(newLambda)`
already satisfied — the work item itself is not part of the modelled
state): scan the slots; if no slot task carries the id, do
`auto task = m_tasks.find(taskID); if(task->second) ... SUCCEEDED_AT_QUEUE
else TASK_NOT_FOUND`. When `find` returns the end iterator (id absent from
the directory) the `task->second` dereference is undefined behaviour,
modelled as `none`. -/
def SetNewLambdaForTask (p : TinyTasksPool) (taskID : Nat) :
    Option (Result × TinyTasksPool) :=
  match setLambdaLoop p.m_tasks taskID p.m_threadsTasks with
  | none => none
  | some (some slots1) =>
    some (Result.SUCCEEDED, { p with m_threadsTasks := slots1 })
  | some none =>
    match dirFind p.m_tasks taskID with
    | none => none
    | some (some _) => some (Result.SUCCEEDED_AT_QUEUE, p)
    | some none => some (Result.TASK_NOT_FOUND, p)

/-- The slot scan of `RunPendingTasks`: `assert(threadTask)`; when the
slot's task `HasStopped() || HasCompleted()`: `break` if the pending queue
is empty, else join the slot's thread, move the queue's front task into the
slot and spawn a thread running its `Run`. Returns the new slots, the
remaining queue, and the ids started in scan order. -/
def runPendingLoop (dir : Dir) : List Slot → List Nat →
    Option (List Slot × List Nat × List Nat)
  | [], pending => some ([], pending, [])
  | s :: rest, pending =>
    match s.task with
    | none => none
    | some id =>
      match dirFind dir id with
      | some (some t) =>
        if t.HasStopped || t.HasCompleted then
          match pending with
          | [] => some (s :: rest, [], [])
          | q :: qs =>
            match runPendingLoop dir rest qs with
            | some (rest1, pending1, started) =>
              some ({ thread := ThreadHandle.runThread q, task := some q } :: rest1,
                    pending1, q :: started)
            | none => none
        else
          match runPendingLoop dir rest pending with
          | some (rest1, pending1, started) => some (s :: rest1, pending1, started)
          | none => none
      | _ => none

/-- `RunPendingTasks()`: run the slot scan and return `SUCCEEDED`. -/
def RunPendingTasks (p : TinyTasksPool) : Option (Result × TinyTasksPool) :=
  match runPendingLoop p.m_tasks p.m_threadsTasks p.m_pendingTasks with
  | none => none
  | some (slots1, pending1, _) =>
    some (Result.SUCCEEDED,
          { p with m_threadsTasks := slots1, m_pendingTasks := pending1 })

/-- The pool-level operations: the three public mutators, plus `taskStep`,
which over-approximates any mutation of one task's state performed through
its own interface (by its running body or by a caller holding the `GetTask`
pointer) — such mutations never touch the pool's slots, queue, directory
keys or id counter. -/
inductive PoolOp where
  | create
  | setLambda (tid : Nat)
  | runPending
  | taskStep (tid : Nat) (f : TinyTask → TinyTask)

/-- Apply one pool-level operation; the optional `Nat` is the id returned
by `CreateTask`. -/
def applyOp : PoolOp → TinyTasksPool → Option (Option Nat × TinyTasksPool)
  | PoolOp.create, p =>
    match CreateTask p with
    | some (id, p1) => some (some id, p1)
    | none => none
  | PoolOp.setLambda tid, p =>
    match SetNewLambdaForTask p tid with
    | some (_, p1) => some (none, p1)
    | none => none
  | PoolOp.runPending, p =>
    match RunPendingTasks p with
    | some (_, p1) => some (none, p1)
    | none => none
  | PoolOp.taskStep tid f, p =>
    some (none, { p with m_tasks := dirUpdate p.m_tasks tid f })

/-- Run a sequence of pool operations, collecting the created ids. -/
def runOps : List PoolOp → TinyTasksPool → Option (List Nat × TinyTasksPool)
  | [], p => some ([], p)
  | op :: ops, p =>
    match applyOp op p with
    | some (r, p1) =>
      match runOps ops p1 with
      | some (ids, p2) => some (r.toList ++ ids, p2)
      | none => none
    | none => none

/-! ### Task state-machine invariant machinery -/

/-- The task invariant of interest: a stopped task has no pending stop
request. -/
def taskInv (t : TinyTask) : Prop :=
  t.m_status = Status.STOPPED → t.m_isStopping = false

/-- Every task-level step preserves `taskInv`. -/
theorem applyTaskOp_taskInv (op : TaskOp) (t t1 : TinyTask)
    (h : applyTaskOp op t = some t1) (hInv : taskInv t) : taskInv t1 := by
  obtain ⟨st, id, stp⟩ := t
  cases op <;> cases st <;> cases stp <;>
    simp_all [applyTaskOp, TinyTask.Pause, TinyTask.Resume, TinyTask.Stop,
      TinyTask.IsPaused, runEpilogue, taskInv] <;>
    simp [← h]

/-- A sequence of task-level steps preserves `taskInv`. -/
theorem runTaskOps_taskInv (ops : List TaskOp) (t t1 : TinyTask)
    (h : runTaskOps ops t = some t1) (hInv : taskInv t) : taskInv t1 := by
  induction ops generalizing t with
  | nil => simp only [runTaskOps, Option.some.injEq] at h; rw [← h]; exact hInv
  | cons op rest ih =>
    simp only [runTaskOps] at h
    cases hstep : applyTaskOp op t with
    | none => rw [hstep] at h; simp at h
    | some tmid =>
      rw [hstep] at h
      exact ih tmid h (applyTaskOp_taskInv op t tmid hstep hInv)

/-! ### Claim theorems: task state machine -/

/-- C1: `Run()` sets status `RUNNING` and hands the task (in that state) to
the work item; when the work item returns with `m_isStopping` set, `Run`
clears the flag and sets status `STOPPED`, otherwise it sets `COMPLETED`;
and no task operation other than `Run`'s epilogue ever changes the status
to `STOPPED` or `COMPLETED`. -/
theorem claim_C1_run :
    (∀ (body : TinyTask → TinyTask) (t : TinyTask),
      (body { t with m_status := Status.RUNNING }).m_isStopping = true →
        (TinyTask.Run body t).m_status = Status.STOPPED ∧
        (TinyTask.Run body t).m_isStopping = false) ∧
    (∀ (body : TinyTask → TinyTask) (t : TinyTask),
      (body { t with m_status := Status.RUNNING }).m_isStopping = false →
        (TinyTask.Run body t).m_status = Status.COMPLETED ∧
        (TinyTask.Run body t).m_isStopping = false) ∧
    (∀ (op : TaskOp) (t t1 : TinyTask), applyTaskOp op t = some t1 →
      op ≠ TaskOp.runFinish →
        (t1.m_status = Status.STOPPED → t.m_status = Status.STOPPED) ∧
        (t1.m_status = Status.COMPLETED → t.m_status = Status.COMPLETED)) := by
  refine ⟨?_, ?_, ?_⟩
  · intro body t hstop
    simp [TinyTask.Run, runEpilogue, hstop]
  · intro body t hstop
    simp [TinyTask.Run, runEpilogue, hstop]
  · intro op t t1 h hne
    obtain ⟨st, id, stp⟩ := t
    cases op <;> cases st <;> cases stp <;>
      simp_all [applyTaskOp, TinyTask.Pause, TinyTask.Resume, TinyTask.Stop,
        TinyTask.IsPaused, runEpilogue] <;>
      simp [← h]

/-- C1 witness: a concrete run whose body requests a stop ends `STOPPED`
with the flag cleared. -/
theorem claim_C1_run_witness :
    ((fun s : TinyTask => { s with m_isStopping := true })
        { TinyTask.mkWithID 0 with m_status := Status.RUNNING }).m_isStopping = true ∧
    (TinyTask.Run (fun s : TinyTask => { s with m_isStopping := true })
        (TinyTask.mkWithID 0)).m_status = Status.STOPPED :=
  ⟨by decide,
   (claim_C1_run.1 (fun s : TinyTask => { s with m_isStopping := true })
      (TinyTask.mkWithID 0) (by decide)).1⟩

/-- C3: `Stop()` succeeds exactly from `RUNNING` or `PAUSED` (assertion
failure otherwise); from `PAUSED` it first resumes, so the result is
`RUNNING` with `m_isStopping` true; from `RUNNING` it only sets
`m_isStopping`; and `Stop` never produces status `STOPPED` itself. -/
theorem claim_C3_stop :
    (∀ t : TinyTask, t.m_status = Status.PAUSED →
      TinyTask.Stop t =
        some { t with m_status := Status.RUNNING, m_isStopping := true }) ∧
    (∀ t : TinyTask, t.m_status = Status.RUNNING →
      TinyTask.Stop t = some { t with m_isStopping := true }) ∧
    (∀ t : TinyTask, t.m_status ≠ Status.RUNNING → t.m_status ≠ Status.PAUSED →
      TinyTask.Stop t = none) ∧
    (∀ t t1 : TinyTask, TinyTask.Stop t = some t1 →
      t1.m_status ≠ Status.STOPPED) := by
  refine ⟨?_, ?_, ?_, ?_⟩
  · intro t h
    simp [TinyTask.Stop, TinyTask.Resume, TinyTask.IsPaused, h]
  · intro t h
    simp [TinyTask.Stop, TinyTask.Resume, TinyTask.IsPaused, h]
  · intro t h1 h2
    simp [TinyTask.Stop, h1, h2]
  · intro t t1 h
    obtain ⟨st, id, stp⟩ := t
    cases st <;>
      simp_all [TinyTask.Stop, TinyTask.Resume, TinyTask.IsPaused] <;>
      simp [← h]

/-- C3 witness: stopping a concrete paused task yields a running task with
the stop flag set, whose status is not `STOPPED`. -/
theorem claim_C3_stop_witness :
    (TinyTask.mkWithID 4).m_status = Status.PAUSED ∧
    TinyTask.Stop (TinyTask.mkWithID 4) =
      some { TinyTask.mkWithID 4 with
              m_status := Status.RUNNING, m_isStopping := true } :=
  ⟨by decide, claim_C3_stop.1 (TinyTask.mkWithID 4) (by decide)⟩

/-- C4: `Pause()` succeeds exactly from `RUNNING` and sets `PAUSED`;
`Resume()` succeeds exactly from `PAUSED` and sets `RUNNING`; from any
other status each is an assertion failure. -/
theorem claim_C4_pause_resume :
    (∀ t : TinyTask, t.m_status = Status.RUNNING →
      TinyTask.Pause t = some { t with m_status := Status.PAUSED }) ∧
    (∀ t : TinyTask, t.m_status ≠ Status.RUNNING → TinyTask.Pause t = none) ∧
    (∀ t : TinyTask, t.m_status = Status.PAUSED →
      TinyTask.Resume t = some { t with m_status := Status.RUNNING }) ∧
    (∀ t : TinyTask, t.m_status ≠ Status.PAUSED → TinyTask.Resume t = none) := by
  refine ⟨?_, ?_, ?_, ?_⟩
  · intro t h; simp [TinyTask.Pause, h]
  · intro t h; simp [TinyTask.Pause, h]
  · intro t h; simp [TinyTask.Resume, h]
  · intro t h; simp [TinyTask.Resume, h]

/-- C4 witness: pausing a concrete running task yields the paused task, and
resuming a concrete paused task yields the running task. -/
theorem claim_C4_pause_resume_witness :
    ({ m_status := Status.RUNNING, m_ID := 7, m_isStopping := false } :
        TinyTask).m_status = Status.RUNNING ∧
    TinyTask.Pause
        { m_status := Status.RUNNING, m_ID := 7, m_isStopping := false } =
      some { m_status := Status.PAUSED, m_ID := 7, m_isStopping := false } :=
  ⟨by decide,
   claim_C4_pause_resume.1
     { m_status := Status.RUNNING, m_ID := 7, m_isStopping := false }
     (by decide)⟩

/-- C8: in every task state reachable from a freshly constructed task by
the defined operations under their preconditions, status `STOPPED` implies
`m_isStopping = false`. -/
theorem claim_C8_stopped_flag_clear :
    ∀ (ops : List TaskOp) (id : Nat) (t : TinyTask),
      runTaskOps ops (TinyTask.mkWithID id) = some t →
      t.m_status = Status.STOPPED → t.m_isStopping = false := by
  intro ops id t h
  exact runTaskOps_taskInv ops (TinyTask.mkWithID id) t h (by intro hs; rfl)

/-- C8 witness: a concrete run-stop-finish trace reaches `STOPPED` with the
flag cleared. -/
theorem claim_C8_stopped_flag_clear_witness :
    runTaskOps [TaskOp.runStart, TaskOp.stop, TaskOp.runFinish]
        (TinyTask.mkWithID 0) =
      some { m_status := Status.STOPPED, m_ID := 0, m_isStopping := false } ∧
    ({ m_status := Status.STOPPED, m_ID := 0, m_isStopping := false } :
        TinyTask).m_isStopping = false :=
  ⟨by decide,
   claim_C8_stopped_flag_clear [TaskOp.runStart, TaskOp.stop, TaskOp.runFinish]
     0 { m_status := Status.STOPPED, m_ID := 0, m_isStopping := false }
     (by decide) (by decide)⟩

/-! ### Per-operation facts about the pool -/

/-- What a successful `CreateTask` did: returned the current counter value,
incremented the counter, inserted the fresh task in the directory, and
either bound it to the first free slot (queue untouched) or appended it to
the pending queue (slots untouched). -/
theorem CreateTask_cases (p : TinyTasksPool) (id : Nat) (p1 : TinyTasksPool)
    (h : CreateTask p = some (id, p1)) :
    id = p.m_nextFreeTaskId ∧
    p.m_nextFreeTaskId < constants.kMaxNumTasksInPool ∧
    p1.m_nextFreeTaskId = id + 1 ∧
    p1.m_numThreads = p.m_numThreads ∧
    p1.m_tasks = dirInsert p.m_tasks id (TinyTask.mkWithID id) ∧
    ((∃ slots1, bindFirstFree p.m_threadsTasks id = some slots1 ∧
        p1.m_threadsTasks = slots1 ∧ p1.m_pendingTasks = p.m_pendingTasks) ∨
     (bindFirstFree p.m_threadsTasks id = none ∧
        p1.m_threadsTasks = p.m_threadsTasks ∧
        p1.m_pendingTasks = p.m_pendingTasks ++ [id])) := by
  unfold CreateTask at h
  split at h
  · rename_i hlt
    cases hbind : bindFirstFree p.m_threadsTasks p.m_nextFreeTaskId with
    | some slots1 =>
      simp only [hbind, Option.some.injEq, Prod.mk.injEq] at h
      obtain ⟨hid, hp1⟩ := h
      subst hid
      refine ⟨rfl, hlt, ?_, ?_, ?_, Or.inl ⟨slots1, hbind, ?_, ?_⟩⟩ <;>
        rw [← hp1]
    | none =>
      simp only [hbind, Option.some.injEq, Prod.mk.injEq] at h
      obtain ⟨hid, hp1⟩ := h
      subst hid
      refine ⟨rfl, hlt, ?_, ?_, ?_, Or.inr ⟨hbind, ?_, ?_⟩⟩ <;>
        rw [← hp1]
  · simp at h

/-- `CreateTask` fails exactly when the id counter has reached
`kMaxNumTasksInPool`; below that bound it succeeds and returns the
counter. -/
theorem CreateTask_of_lt (p : TinyTasksPool)
    (h : p.m_nextFreeTaskId < constants.kMaxNumTasksInPool) :
    ∃ p1, CreateTask p = some (p.m_nextFreeTaskId, p1) ∧
      p1.m_nextFreeTaskId = p.m_nextFreeTaskId + 1 := by
  unfold CreateTask
  rw [if_pos h]
  cases hbind : bindFirstFree p.m_threadsTasks p.m_nextFreeTaskId <;>
    simp [hbind]

/-- `CreateTask` hits its assertion once the counter reaches the maximum. -/
theorem CreateTask_none_of_max (p : TinyTasksPool)
    (h : constants.kMaxNumTasksInPool ≤ p.m_nextFreeTaskId) :
    CreateTask p = none := by
  unfold CreateTask
  rw [if_neg (by omega)]

/-- What a successful `SetNewLambdaForTask` did: everything except possibly
the slot table (one thread handle swap) is unchanged. -/
theorem SetNewLambdaForTask_spec (p : TinyTasksPool) (tid : Nat)
    (r : Result) (p1 : TinyTasksPool)
    (h : SetNewLambdaForTask p tid = some (r, p1)) :
    p1.m_numThreads = p.m_numThreads ∧
    p1.m_nextFreeTaskId = p.m_nextFreeTaskId ∧
    p1.m_pendingTasks = p.m_pendingTasks ∧
    p1.m_tasks = p.m_tasks ∧
    (p1.m_threadsTasks = p.m_threadsTasks ∨
      ∃ slots1, setLambdaLoop p.m_tasks tid p.m_threadsTasks = some (some slots1) ∧
        p1.m_threadsTasks = slots1) := by
  unfold SetNewLambdaForTask at h
  split at h
  · simp at h
  · rename_i slots1 heq
    simp only [Option.some.injEq, Prod.mk.injEq] at h
    obtain ⟨_, hp1⟩ := h
    refine ⟨?_, ?_, ?_, ?_, Or.inr ⟨slots1, heq, ?_⟩⟩ <;> rw [← hp1]
  · split at h
    · simp at h
    · simp only [Option.some.injEq, Prod.mk.injEq] at h
      obtain ⟨_, hp1⟩ := h
      refine ⟨?_, ?_, ?_, ?_, Or.inl ?_⟩ <;> rw [← hp1]
    · simp only [Option.some.injEq, Prod.mk.injEq] at h
      obtain ⟨_, hp1⟩ := h
      refine ⟨?_, ?_, ?_, ?_, Or.inl ?_⟩ <;> rw [← hp1]

/-- What a successful `RunPendingTasks` did: returned `SUCCEEDED`, and the
new slot table and pending queue come from the slot scan. -/
theorem RunPendingTasks_spec (p : TinyTasksPool) (r : Result)
    (p1 : TinyTasksPool) (h : RunPendingTasks p = some (r, p1)) :
    r = Result.SUCCEEDED ∧
    p1.m_numThreads = p.m_numThreads ∧
    p1.m_nextFreeTaskId = p.m_nextFreeTaskId ∧
    p1.m_tasks = p.m_tasks ∧
    ∃ started, runPendingLoop p.m_tasks p.m_threadsTasks p.m_pendingTasks =
      some (p1.m_threadsTasks, p1.m_pendingTasks, started) := by
  unfold RunPendingTasks at h
  split at h
  · simp at h
  · rename_i slots1 pending1 started heq
    simp only [Option.some.injEq, Prod.mk.injEq] at h
    obtain ⟨hr, hp1⟩ := h
    refine ⟨hr.symm, ?_, ?_, ?_, started, ?_⟩ <;> rw [← hp1]
    exact heq

/-- `taskStep` touches only the directory's stored task states. -/
theorem taskStep_spec (tid : Nat) (f : TinyTask → TinyTask)
    (p : TinyTasksPool) (r : Option Nat) (p1 : TinyTasksPool)
    (h : applyOp (PoolOp.taskStep tid f) p = some (r, p1)) :
    p1.m_numThreads = p.m_numThreads ∧
    p1.m_nextFreeTaskId = p.m_nextFreeTaskId ∧
    p1.m_pendingTasks = p.m_pendingTasks ∧
    p1.m_threadsTasks = p.m_threadsTasks := by
  simp only [applyOp, Option.some.injEq, Prod.mk.injEq] at h
  obtain ⟨_, hp1⟩ := h
  refine ⟨?_, ?_, ?_, ?_⟩ <;> rw [← hp1]

/-! ### Slot-scan lemmas -/

/-- `bindFirstFree` never unbinds a slot: an occupied position stays
occupied (with the same task). -/
theorem bindFirstFree_preserves (slots slots1 : List Slot) (tid : Nat)
    (h : bindFirstFree slots tid = some slots1) :
    ∀ (i : Nat) (s : Slot), slots[i]? = some s → s.task.isSome = true →
      ∃ s1 : Slot, slots1[i]? = some s1 ∧ s1.task = s.task := by
  induction slots generalizing slots1 with
  | nil => simp [bindFirstFree] at h
  | cons hd tl ih =>
    intro i s hi hsome
    simp only [bindFirstFree] at h
    cases htask : hd.task with
    | none =>
      simp only [htask, Option.some.injEq] at h
      cases i with
      | zero =>
        simp only [List.getElem?_cons_zero, Option.some.injEq] at hi
        subst hi
        rw [htask] at hsome
        simp at hsome
      | succ j =>
        subst h
        simp only [List.getElem?_cons_succ] at hi ⊢
        exact ⟨s, hi, rfl⟩
    | some t0 =>
      simp only [htask] at h
      cases hrec : bindFirstFree tl tid with
      | none => simp [hrec] at h
      | some rest1 =>
        simp only [hrec, Option.some.injEq] at h
        subst h
        cases i with
        | zero =>
          simp only [List.getElem?_cons_zero, Option.some.injEq] at hi
          subst hi
          exact ⟨hd, by simp, rfl⟩
        | succ j =>
          simp only [List.getElem?_cons_succ] at hi ⊢
          exact ih rest1 hrec j s hi hsome

/-- `bindFirstFree` consumes exactly one free slot. -/
theorem bindFirstFree_countP (slots slots1 : List Slot) (tid : Nat)
    (h : bindFirstFree slots tid = some slots1) :
    slots1.countP (fun s => s.task.isNone) + 1 =
      slots.countP (fun s => s.task.isNone) := by
  induction slots generalizing slots1 with
  | nil => simp [bindFirstFree] at h
  | cons hd tl ih =>
    simp only [bindFirstFree] at h
    cases htask : hd.task with
    | none =>
      simp only [htask, Option.some.injEq] at h
      subst h
      simp [List.countP_cons, htask]
    | some t0 =>
      simp only [htask] at h
      cases hrec : bindFirstFree tl tid with
      | none => simp [hrec] at h
      | some rest1 =>
        simp only [hrec, Option.some.injEq] at h
        subst h
        have := ih rest1 hrec
        simp only [List.countP_cons, htask]
        omega

/-- `bindFirstFree` fails exactly on a table with no free slot. -/
theorem bindFirstFree_none_iff (slots : List Slot) (tid : Nat) :
    bindFirstFree slots tid = none ↔ ∀ s ∈ slots, s.task.isSome = true := by
  induction slots with
  | nil => simp [bindFirstFree]
  | cons hd tl ih =>
    simp only [bindFirstFree]
    cases htask : hd.task with
    | none =>
      simp only [htask]
      constructor
      · intro hc; simp at hc
      · intro hall
        have := hall hd (List.mem_cons_self hd tl)
        rw [htask] at this
        simp at this
    | some t0 =>
      simp only [htask]
      cases hrec : bindFirstFree tl tid with
      | none =>
        have htl : ∀ s ∈ tl, s.task.isSome = true := ih.mp hrec
        simp only [hrec]
        constructor
        · intro _ s hs
          rcases List.mem_cons.mp hs with h1 | h2
          · subst h1; simp [htask]
          · exact htl s h2
        · intro _; trivial
      | some rest1 =>
        simp only [hrec]
        constructor
        · intro hc; simp at hc
        · intro hall
          have hnone : bindFirstFree tl tid = none :=
            ih.mpr (fun s hs => hall s (List.mem_cons_of_mem hd hs))
          rw [hnone] at hrec
          simp at hrec

/-- The `SetNewLambdaForTask` slot scan preserves every slot's bound task
(only one thread handle changes). -/
theorem setLambdaLoop_preserves (dir : Dir) (tid : Nat)
    (slots slots1 : List Slot)
    (h : setLambdaLoop dir tid slots = some (some slots1)) :
    ∀ (i : Nat) (s : Slot), slots[i]? = some s →
      ∃ s1 : Slot, slots1[i]? = some s1 ∧ s1.task = s.task := by
  induction slots generalizing slots1 with
  | nil => simp [setLambdaLoop] at h
  | cons hd tl ih =>
    intro i s hi
    simp only [setLambdaLoop] at h
    cases htask : hd.task with
    | none => simp [htask] at h
    | some id =>
      simp only [htask] at h
      cases hfind : dirFind dir id with
      | none => simp [hfind] at h
      | some ptr =>
        cases ptr with
        | none => simp [hfind] at h
        | some t =>
          simp only [hfind] at h
          by_cases hid : t.GetID = tid
          · rw [if_pos hid] at h
            by_cases hassert : dispatchAssert t = true
            · rw [if_pos hassert] at h
              simp only [Option.some.injEq] at h
              subst h
              cases i with
              | zero =>
                simp only [List.getElem?_cons_zero, Option.some.injEq] at hi
                subst hi
                refine ⟨{ thread := ThreadHandle.runThread id, task := some id },
                  by simp, ?_⟩
                rw [htask]
              | succ j =>
                simp only [List.getElem?_cons_succ] at hi ⊢
                exact ⟨s, hi, rfl⟩
            · rw [if_neg hassert] at h
              simp at h
          · rw [if_neg hid] at h
            cases hrec : setLambdaLoop dir tid tl with
            | none => simp [hrec] at h
            | some inner =>
              cases inner with
              | none => simp [hrec] at h
              | some rest1 =>
                simp only [hrec, Option.some.injEq] at h
                subst h
                cases i with
                | zero =>
                  simp only [List.getElem?_cons_zero, Option.some.injEq] at hi
                  subst hi
                  exact ⟨hd, by simp, rfl⟩
                | succ j =>
                  simp only [List.getElem?_cons_succ] at hi ⊢
                  exact ih rest1 hrec j s hi

/-- The `RunPendingTasks` slot scan pops a prefix of the pending queue, in
order, into the slots it refills: the started ids are exactly the first `k`
queued ids for some `k`, the queue keeps the rest, the table length is
unchanged, and every started id now occupies a slot whose thread runs its
`Run`. -/
theorem runPendingLoop_spec (dir : Dir) (slots : List Slot)
    (pending : List Nat) (slots1 : List Slot) (pending1 started : List Nat)
    (h : runPendingLoop dir slots pending = some (slots1, pending1, started)) :
    ∃ k, started = pending.take k ∧ pending1 = pending.drop k ∧
      slots1.length = slots.length ∧
      (∀ q ∈ started, ∃ s1 ∈ slots1, s1.task = some q ∧
        s1.thread = ThreadHandle.runThread q) := by
  induction slots generalizing pending slots1 pending1 started with
  | nil =>
    simp only [runPendingLoop, Option.some.injEq, Prod.mk.injEq] at h
    obtain ⟨h1, h2, h3⟩ := h
    subst h1; subst h2; subst h3
    exact ⟨0, by simp, by simp, by simp, by simp⟩
  | cons hd tl ih =>
    simp only [runPendingLoop] at h
    cases htask : hd.task with
    | none => simp [htask] at h
    | some id =>
      simp only [htask] at h
      cases hfind : dirFind dir id with
      | none => simp [hfind] at h
      | some ptr =>
        cases ptr with
        | none => simp [hfind] at h
        | some t =>
          simp only [hfind] at h
          by_cases hfin : (t.HasStopped || t.HasCompleted) = true
          · rw [if_pos hfin] at h
            cases pending with
            | nil =>
              simp only [Option.some.injEq, Prod.mk.injEq] at h
              obtain ⟨h1, h2, h3⟩ := h
              subst h1; subst h2; subst h3
              exact ⟨0, by simp, by simp, by simp, by simp⟩
            | cons q qs =>
              cases hrec : runPendingLoop dir tl qs with
              | none => simp [hrec] at h
              | some res =>
                obtain ⟨rest1, pending2, started2⟩ := res
                simp only [hrec, Option.some.injEq, Prod.mk.injEq] at h
                obtain ⟨h1, h2, h3⟩ := h
                subst h1; subst h2; subst h3
                obtain ⟨k, hk1, hk2, hk3, hk4⟩ :=
                  ih qs rest1 pending2 started2 hrec
                refine ⟨k + 1, ?_, ?_, ?_, ?_⟩
                · rw [List.take_succ_cons, hk1]
                · rw [List.drop_succ_cons, hk2]
                · simp [hk3]
                · intro q1 hq1
                  rcases List.mem_cons.mp hq1 with hq | hq
                  · subst hq
                    exact ⟨{ thread := ThreadHandle.runThread q1, task := some q1 },
                      List.mem_cons_self _ _, rfl, rfl⟩
                  · obtain ⟨s1, hs1, hst⟩ := hk4 q1 hq
                    exact ⟨s1, List.mem_cons_of_mem _ hs1, hst⟩
          · rw [if_neg hfin] at h
            cases hrec : runPendingLoop dir tl pending with
            | none => simp [hrec] at h
            | some res =>
              obtain ⟨rest1, pending2, started2⟩ := res
              simp only [hrec, Option.some.injEq, Prod.mk.injEq] at h
              obtain ⟨h1, h2, h3⟩ := h
              subst h1; subst h2; subst h3
              obtain ⟨k, hk1, hk2, hk3, hk4⟩ :=
                ih pending rest1 pending2 started2 hrec
              refine ⟨k, hk1, hk2, by simp [hk3], ?_⟩
              intro q1 hq1
              obtain ⟨s1, hs1, hst⟩ := hk4 q1 hq1
              exact ⟨s1, List.mem_cons_of_mem _ hs1, hst⟩

/-- The `RunPendingTasks` slot scan never empties a slot: an occupied
position stays occupied. -/
theorem runPendingLoop_preserves (dir : Dir) (slots : List Slot)
    (pending : List Nat) (slots1 : List Slot) (pending1 started : List Nat)
    (h : runPendingLoop dir slots pending = some (slots1, pending1, started)) :
    ∀ (i : Nat) (s : Slot), slots[i]? = some s → s.task.isSome = true →
      ∃ s1 : Slot, slots1[i]? = some s1 ∧ s1.task.isSome = true := by
  induction slots generalizing pending slots1 pending1 started with
  | nil => simp at h ⊢
  | cons hd tl ih =>
    intro i s hi hsome
    simp only [runPendingLoop] at h
    cases htask : hd.task with
    | none => simp [htask] at h
    | some id =>
      simp only [htask] at h
      cases hfind : dirFind dir id with
      | none => simp [hfind] at h
      | some ptr =>
        cases ptr with
        | none => simp [hfind] at h
        | some t =>
          simp only [hfind] at h
          by_cases hfin : (t.HasStopped || t.HasCompleted) = true
          · rw [if_pos hfin] at h
            cases pending with
            | nil =>
              simp only [Option.some.injEq, Prod.mk.injEq] at h
              obtain ⟨h1, h2, h3⟩ := h
              subst h1
              exact ⟨s, hi, hsome⟩
            | cons q qs =>
              cases hrec : runPendingLoop dir tl qs with
              | none => simp [hrec] at h
              | some res =>
                obtain ⟨rest1, pending2, started2⟩ := res
                simp only [hrec, Option.some.injEq, Prod.mk.injEq] at h
                obtain ⟨h1, h2, h3⟩ := h
                subst h1
                cases i with
                | zero =>
                  exact ⟨{ thread := ThreadHandle.runThread q, task := some q },
                    by simp, by simp⟩
                | succ j =>
                  simp only [List.getElem?_cons_succ] at hi ⊢
                  exact ih qs rest1 pending2 started2 hrec j s hi hsome
          · rw [if_neg hfin] at h
            cases hrec : runPendingLoop dir tl pending with
            | none => simp [hrec] at h
            | some res =>
              obtain ⟨rest1, pending2, started2⟩ := res
              simp only [hrec, Option.some.injEq, Prod.mk.injEq] at h
              obtain ⟨h1, h2, h3⟩ := h
              subst h1
              cases i with
              | zero =>
                simp only [List.getElem?_cons_zero, Option.some.injEq] at hi
                subst hi
                exact ⟨hd, by simp, hsome⟩
              | succ j =>
                simp only [List.getElem?_cons_succ] at hi ⊢
                exact ih pending rest1 pending2 started2 hrec j s hi hsome

/-! ### Facts uniform in the pool operation -/

/-- The id counter never decreases, and a returned id is the counter value
at the call, after which the counter is one past it. -/
theorem applyOp_nextId (op : PoolOp) (p : TinyTasksPool) (r : Option Nat)
    (p1 : TinyTasksPool) (h : applyOp op p = some (r, p1)) :
    p.m_nextFreeTaskId ≤ p1.m_nextFreeTaskId ∧
    (∀ id, r = some id →
      id = p.m_nextFreeTaskId ∧ p1.m_nextFreeTaskId = id + 1) := by
  cases op with
  | create =>
    simp only [applyOp] at h
    cases hc : CreateTask p with
    | none => rw [hc] at h; simp at h
    | some x =>
      obtain ⟨id0, pmid⟩ := x
      rw [hc] at h
      simp only [Option.some.injEq, Prod.mk.injEq] at h
      obtain ⟨hr, hp1⟩ := h
      subst hp1
      subst hr
      obtain ⟨hid, _, hnext, _⟩ := CreateTask_cases p id0 pmid hc
      constructor
      · omega
      · intro id hrid
        simp only [Option.some.injEq] at hrid
        subst hrid
        exact ⟨hid, hnext⟩
  | setLambda tid =>
    simp only [applyOp] at h
    cases hc : SetNewLambdaForTask p tid with
    | none => rw [hc] at h; simp at h
    | some x =>
      obtain ⟨r0, pmid⟩ := x
      rw [hc] at h
      simp only [Option.some.injEq, Prod.mk.injEq] at h
      obtain ⟨hr, hp1⟩ := h
      subst hp1
      subst hr
      obtain ⟨_, hnext, _, _, _⟩ := SetNewLambdaForTask_spec p tid r0 pmid hc
      exact ⟨by omega, fun id hrid => by simp at hrid⟩
  | runPending =>
    simp only [applyOp] at h
    cases hc : RunPendingTasks p with
    | none => rw [hc] at h; simp at h
    | some x =>
      obtain ⟨r0, pmid⟩ := x
      rw [hc] at h
      simp only [Option.some.injEq, Prod.mk.injEq] at h
      obtain ⟨hr, hp1⟩ := h
      subst hp1
      subst hr
      obtain ⟨_, _, hnext, _⟩ := RunPendingTasks_spec p r0 pmid hc
      exact ⟨by omega, fun id hrid => by simp at hrid⟩
  | taskStep tid f =>
    obtain ⟨_, hnext, _, _⟩ := taskStep_spec tid f p r p1 h
    simp only [applyOp, Option.some.injEq, Prod.mk.injEq] at h
    obtain ⟨hr, _⟩ := h
    subst hr
    exact ⟨by omega, fun id hrid => by simp at hrid⟩

/-- No pool operation changes the configured thread count. -/
theorem applyOp_numThreads (op : PoolOp) (p : TinyTasksPool) (r : Option Nat)
    (p1 : TinyTasksPool) (h : applyOp op p = some (r, p1)) :
    p1.m_numThreads = p.m_numThreads := by
  cases op with
  | create =>
    simp only [applyOp] at h
    cases hc : CreateTask p with
    | none => rw [hc] at h; simp at h
    | some x =>
      obtain ⟨id0, pmid⟩ := x
      rw [hc] at h
      simp only [Option.some.injEq, Prod.mk.injEq] at h
      obtain ⟨_, hp1⟩ := h
      subst hp1
      exact (CreateTask_cases p id0 pmid hc).2.2.2.1
  | setLambda tid =>
    simp only [applyOp] at h
    cases hc : SetNewLambdaForTask p tid with
    | none => rw [hc] at h; simp at h
    | some x =>
      obtain ⟨r0, pmid⟩ := x
      rw [hc] at h
      simp only [Option.some.injEq, Prod.mk.injEq] at h
      obtain ⟨_, hp1⟩ := h
      subst hp1
      exact (SetNewLambdaForTask_spec p tid r0 pmid hc).1
  | runPending =>
    simp only [applyOp] at h
    cases hc : RunPendingTasks p with
    | none => rw [hc] at h; simp at h
    | some x =>
      obtain ⟨r0, pmid⟩ := x
      rw [hc] at h
      simp only [Option.some.injEq, Prod.mk.injEq] at h
      obtain ⟨_, hp1⟩ := h
      subst hp1
      exact (RunPendingTasks_spec p r0 pmid hc).2.1
  | taskStep tid f => exact (taskStep_spec tid f p r p1 h).1

/-- No pool operation ever unbinds an occupied slot. -/
theorem applyOp_slot_preserves (op : PoolOp) (p : TinyTasksPool)
    (r : Option Nat) (p1 : TinyTasksPool) (h : applyOp op p = some (r, p1)) :
    ∀ (i : Nat) (s : Slot), p.m_threadsTasks[i]? = some s →
      s.task.isSome = true →
      ∃ s1 : Slot, p1.m_threadsTasks[i]? = some s1 ∧ s1.task.isSome = true := by
  intro i s hi hsome
  cases op with
  | create =>
    simp only [applyOp] at h
    cases hc : CreateTask p with
    | none => rw [hc] at h; simp at h
    | some x =>
      obtain ⟨id0, pmid⟩ := x
      rw [hc] at h
      simp only [Option.some.injEq, Prod.mk.injEq] at h
      obtain ⟨_, hp1⟩ := h
      subst hp1
      obtain ⟨_, _, _, _, _, hbranch⟩ := CreateTask_cases p id0 pmid hc
      rcases hbranch with ⟨slots1, hbind, hslots, _⟩ | ⟨_, hslots, _⟩
      · obtain ⟨s1, hs1, hts⟩ :=
          bindFirstFree_preserves p.m_threadsTasks slots1 id0 hbind i s hi hsome
        rw [hslots]
        exact ⟨s1, hs1, by rw [hts]; exact hsome⟩
      · rw [hslots]
        exact ⟨s, hi, hsome⟩
  | setLambda tid =>
    simp only [applyOp] at h
    cases hc : SetNewLambdaForTask p tid with
    | none => rw [hc] at h; simp at h
    | some x =>
      obtain ⟨r0, pmid⟩ := x
      rw [hc] at h
      simp only [Option.some.injEq, Prod.mk.injEq] at h
      obtain ⟨_, hp1⟩ := h
      subst hp1
      obtain ⟨_, _, _, _, hbranch⟩ := SetNewLambdaForTask_spec p tid r0 pmid hc
      rcases hbranch with hslots | ⟨slots1, hloop, hslots⟩
      · rw [hslots]
        exact ⟨s, hi, hsome⟩
      · obtain ⟨s1, hs1, hts⟩ :=
          setLambdaLoop_preserves p.m_tasks tid p.m_threadsTasks slots1 hloop i s hi
        rw [hslots]
        exact ⟨s1, hs1, by rw [hts]; exact hsome⟩
  | runPending =>
    simp only [applyOp] at h
    cases hc : RunPendingTasks p with
    | none => rw [hc] at h; simp at h
    | some x =>
      obtain ⟨r0, pmid⟩ := x
      rw [hc] at h
      simp only [Option.some.injEq, Prod.mk.injEq] at h
      obtain ⟨_, hp1⟩ := h
      subst hp1
      obtain ⟨_, _, _, _, started, hloop⟩ := RunPendingTasks_spec p r0 pmid hc
      exact runPendingLoop_preserves p.m_tasks p.m_threadsTasks
        p.m_pendingTasks pmid.m_threadsTasks pmid.m_pendingTasks started hloop
        i s hi hsome
  | taskStep tid f =>
    obtain ⟨_, _, _, hslots⟩ := taskStep_spec tid f p r p1 h
    rw [hslots]
    exact ⟨s, hi, hsome⟩

/-- Every operation except `RunPendingTasks` leaves the old pending queue
as a prefix of the new one: only the drain removes queued tasks. -/
theorem applyOp_pending_extends (op : PoolOp) (p : TinyTasksPool)
    (r : Option Nat) (p1 : TinyTasksPool) (hne : op ≠ PoolOp.runPending)
    (h : applyOp op p = some (r, p1)) :
    ∃ l, p1.m_pendingTasks = p.m_pendingTasks ++ l := by
  cases op with
  | create =>
    simp only [applyOp] at h
    cases hc : CreateTask p with
    | none => rw [hc] at h; simp at h
    | some x =>
      obtain ⟨id0, pmid⟩ := x
      rw [hc] at h
      simp only [Option.some.injEq, Prod.mk.injEq] at h
      obtain ⟨_, hp1⟩ := h
      subst hp1
      obtain ⟨_, _, _, _, _, hbranch⟩ := CreateTask_cases p id0 pmid hc
      rcases hbranch with ⟨_, _, _, hpend⟩ | ⟨_, _, hpend⟩
      · exact ⟨[], by simp [hpend]⟩
      · exact ⟨[id0], hpend⟩
  | setLambda tid =>
    simp only [applyOp] at h
    cases hc : SetNewLambdaForTask p tid with
    | none => rw [hc] at h; simp at h
    | some x =>
      obtain ⟨r0, pmid⟩ := x
      rw [hc] at h
      simp only [Option.some.injEq, Prod.mk.injEq] at h
      obtain ⟨_, hp1⟩ := h
      subst hp1
      exact ⟨[], by simp [(SetNewLambdaForTask_spec p tid r0 pmid hc).2.2.1]⟩
  | runPending => exact absurd rfl hne
  | taskStep tid f =>
    exact ⟨[], by simp [(taskStep_spec tid f p r p1 h).2.2.1]⟩

/-! ### Facts about operation sequences -/

/-- Unpacking the constructor. -/
theorem mkTinyTasksPool_spec (n : Nat) (p : TinyTasksPool)
    (h : mkTinyTasksPool n = some p) :
    p.m_numThreads = n ∧
    p.m_threadsTasks =
      List.replicate n { thread := ThreadHandle.initThread, task := none } ∧
    p.m_pendingTasks = [] ∧ p.m_tasks = [] ∧ p.m_nextFreeTaskId = 0 := by
  unfold mkTinyTasksPool at h
  split at h
  · simp at h
  · simp only [Option.some.injEq] at h
    subst h
    exact ⟨rfl, rfl, rfl, rfl, rfl⟩

/-- Ids handed out along any operation sequence are at least the starting
counter, strictly increasing, and the counter never decreases. -/
theorem runOps_ids (ops : List PoolOp) (p : TinyTasksPool) (ids : List Nat)
    (p1 : TinyTasksPool) (h : runOps ops p = some (ids, p1)) :
    (∀ id ∈ ids, p.m_nextFreeTaskId ≤ id) ∧
    List.Pairwise (fun a b => a < b) ids ∧
    p.m_nextFreeTaskId ≤ p1.m_nextFreeTaskId := by
  induction ops generalizing p ids with
  | nil =>
    simp only [runOps, Option.some.injEq, Prod.mk.injEq] at h
    obtain ⟨h1, h2⟩ := h
    subst h1; subst h2
    exact ⟨by simp, by simp, le_refl _⟩
  | cons op ops ih =>
    simp only [runOps] at h
    cases ha : applyOp op p with
    | none => rw [ha] at h; simp at h
    | some x =>
      obtain ⟨r, pmid⟩ := x
      simp only [ha] at h
      cases hrec : runOps ops pmid with
      | none => simp [hrec] at h
      | some y =>
        obtain ⟨ids2, p2⟩ := y
        simp only [hrec] at h
        simp only [Option.some.injEq, Prod.mk.injEq] at h
        obtain ⟨hids, hp2⟩ := h
        subst hp2
        obtain ⟨hmono, hsome⟩ := applyOp_nextId op p r pmid ha
        obtain ⟨ihlb, ihpw, ihmono⟩ := ih pmid ids2 hrec
        cases r with
        | none =>
          simp only [Option.toList] at hids
          simp only [List.nil_append] at hids
          subst hids
          exact ⟨fun id hid => le_trans hmono (ihlb id hid), ihpw,
            le_trans hmono ihmono⟩
        | some id0 =>
          obtain ⟨hid0, hnext⟩ := hsome id0 rfl
          simp only [Option.toList, List.singleton_append] at hids
          subst hids
          refine ⟨?_, ?_, ?_⟩
          · intro id hid
            rcases List.mem_cons.mp hid with h1 | h2
            · omega
            · have := ihlb id h2
              omega
          · refine List.Pairwise.cons ?_ ihpw
            intro b hb
            have := ihlb b hb
            omega
          · omega

/-- From any pool whose counter has room for `k` more ids, `k` successive
`CreateTask` calls succeed and return exactly the next `k` counter
values, in order. -/
theorem runOps_replicate_create (k : Nat) (p : TinyTasksPool)
    (hk : p.m_nextFreeTaskId + k ≤ constants.kMaxNumTasksInPool) :
    ∃ p1, runOps (List.replicate k PoolOp.create) p =
      some (List.range' p.m_nextFreeTaskId k, p1) ∧
      p1.m_nextFreeTaskId = p.m_nextFreeTaskId + k := by
  induction k generalizing p with
  | zero => exact ⟨p, by simp [runOps], by simp⟩
  | succ k ih =>
    obtain ⟨pmid, hc, hnext⟩ := CreateTask_of_lt p (by omega)
    obtain ⟨p1, hrec, hnext1⟩ := ih pmid (by omega)
    refine ⟨p1, ?_, by omega⟩
    rw [List.replicate_succ]
    simp only [runOps, applyOp, hc]
    rw [hnext] at hrec
    rw [hrec]
    simp only [Option.toList, List.singleton_append, Option.some.injEq,
      Prod.mk.injEq]
    exact ⟨(List.range'_succ _ _ _).symm, trivial⟩

/-- `CreateTask` reduces the number of free slots by one (to zero if there
were none). -/
theorem CreateTask_countP (p : TinyTasksPool) (id : Nat) (p1 : TinyTasksPool)
    (h : CreateTask p = some (id, p1)) :
    p1.m_threadsTasks.countP (fun s => s.task.isNone) =
      p.m_threadsTasks.countP (fun s => s.task.isNone) - 1 := by
  obtain ⟨_, _, _, _, _, hbranch⟩ := CreateTask_cases p id p1 h
  rcases hbranch with ⟨slots1, hbind, hslots, _⟩ | ⟨hbind, hslots, _⟩
  · have := bindFirstFree_countP p.m_threadsTasks slots1 id hbind
    rw [hslots]
    omega
  · have hall := (bindFirstFree_none_iff p.m_threadsTasks id).mp hbind
    have hzero : p.m_threadsTasks.countP (fun s => s.task.isNone) = 0 := by
      rw [List.countP_eq_zero]
      intro s hs
      have := hall s hs
      cases hval : s.task with
      | none => rw [hval] at this; simp at this
      | some q => simp
    rw [hslots, hzero]

/-- After `k` successive creations the number of free slots has dropped by
`k`. -/
theorem runOps_replicate_countP (k : Nat) (p : TinyTasksPool)
    (ids : List Nat) (p1 : TinyTasksPool)
    (h : runOps (List.replicate k PoolOp.create) p = some (ids, p1)) :
    p1.m_threadsTasks.countP (fun s => s.task.isNone) =
      p.m_threadsTasks.countP (fun s => s.task.isNone) - k := by
  induction k generalizing p ids with
  | zero =>
    simp only [List.replicate, runOps, Option.some.injEq, Prod.mk.injEq] at h
    obtain ⟨_, hp1⟩ := h
    subst hp1
    simp
  | succ k ih =>
    rw [List.replicate_succ] at h
    simp only [runOps] at h
    cases ha : applyOp PoolOp.create p with
    | none => rw [ha] at h; simp at h
    | some x =>
      obtain ⟨r, pmid⟩ := x
      simp only [ha] at h
      cases hrec : runOps (List.replicate k PoolOp.create) pmid with
      | none => simp [hrec] at h
      | some y =>
        obtain ⟨ids2, p2⟩ := y
        simp only [hrec] at h
        simp only [Option.some.injEq, Prod.mk.injEq] at h
        obtain ⟨_, hp2⟩ := h
        subst hp2
        simp only [applyOp] at ha
        cases hc : CreateTask p with
        | none => rw [hc] at ha; simp at ha
        | some z =>
          obtain ⟨id0, pc⟩ := z
          rw [hc] at ha
          simp only [Option.some.injEq, Prod.mk.injEq] at ha
          obtain ⟨_, hpc⟩ := ha
          subst hpc
          have h1 := CreateTask_countP p id0 pc hc
          have h2 := ih pc ids2 hrec
          omega

/-- A fresh slot table of `n` unbound slots has `n` free slots. -/
theorem countP_isNone_replicate (n : Nat) :
    (List.replicate n
        { thread := ThreadHandle.initThread, task := none } :
      List Slot).countP (fun s => s.task.isNone) = n := by
  induction n with
  | zero => simp
  | succ k ih => simp [List.replicate_succ, List.countP_cons, ih]

/-! ### Concrete pools used as witnesses -/

/-- `TinyTasksPool(2)` freshly constructed. -/
def fresh2 : TinyTasksPool :=
  { m_numThreads := 2
    m_threadsTasks :=
      [{ thread := ThreadHandle.initThread, task := none },
       { thread := ThreadHandle.initThread, task := none }]
    m_pendingTasks := []
    m_tasks := []
    m_nextFreeTaskId := 0 }

/-- `fresh2` after one `CreateTask`. -/
def pool2c1 : TinyTasksPool :=
  { m_numThreads := 2
    m_threadsTasks :=
      [{ thread := ThreadHandle.initThread, task := some 0 },
       { thread := ThreadHandle.initThread, task := none }]
    m_pendingTasks := []
    m_tasks := [(0, some (TinyTask.mkWithID 0))]
    m_nextFreeTaskId := 1 }

/-- `fresh2` after two `CreateTask` calls: both slots bound. -/
def pool2c2 : TinyTasksPool :=
  { m_numThreads := 2
    m_threadsTasks :=
      [{ thread := ThreadHandle.initThread, task := some 0 },
       { thread := ThreadHandle.initThread, task := some 1 }]
    m_pendingTasks := []
    m_tasks := [(0, some (TinyTask.mkWithID 0)), (1, some (TinyTask.mkWithID 1))]
    m_nextFreeTaskId := 2 }

/-- `pool2c2` after a third `CreateTask`: the new task is queued. -/
def pool2c3 : TinyTasksPool :=
  { m_numThreads := 2
    m_threadsTasks :=
      [{ thread := ThreadHandle.initThread, task := some 0 },
       { thread := ThreadHandle.initThread, task := some 1 }]
    m_pendingTasks := [2]
    m_tasks := [(0, some (TinyTask.mkWithID 0)), (1, some (TinyTask.mkWithID 1)),
                (2, some (TinyTask.mkWithID 2))]
    m_nextFreeTaskId := 3 }

/-- `pool2c2` with task 0 currently `RUNNING`. -/
def runningPool : TinyTasksPool :=
  { m_numThreads := 2
    m_threadsTasks :=
      [{ thread := ThreadHandle.initThread, task := some 0 },
       { thread := ThreadHandle.initThread, task := some 1 }]
    m_pendingTasks := []
    m_tasks := [(0, some { m_status := Status.RUNNING, m_ID := 0,
                            m_isStopping := false }),
                (1, some (TinyTask.mkWithID 1))]
    m_nextFreeTaskId := 2 }

/-- `runningPool` after `SetNewLambdaForTask(0, ...)` redispatched slot 0. -/
def runningPoolAfter : TinyTasksPool :=
  { m_numThreads := 2
    m_threadsTasks :=
      [{ thread := ThreadHandle.runThread 0, task := some 0 },
       { thread := ThreadHandle.initThread, task := some 1 }]
    m_pendingTasks := []
    m_tasks := [(0, some { m_status := Status.RUNNING, m_ID := 0,
                            m_isStopping := false }),
                (1, some (TinyTask.mkWithID 1))]
    m_nextFreeTaskId := 2 }

/-- A pool whose slot 0 task has completed while task 2 waits in the
queue. -/
def drainPool : TinyTasksPool :=
  { m_numThreads := 2
    m_threadsTasks :=
      [{ thread := ThreadHandle.initThread, task := some 0 },
       { thread := ThreadHandle.initThread, task := some 1 }]
    m_pendingTasks := [2]
    m_tasks := [(0, some { m_status := Status.COMPLETED, m_ID := 0,
                            m_isStopping := false }),
                (1, some (TinyTask.mkWithID 1)),
                (2, some (TinyTask.mkWithID 2))]
    m_nextFreeTaskId := 3 }

/-- `drainPool` after `RunPendingTasks` moved task 2 into slot 0. -/
def drainPoolAfter : TinyTasksPool :=
  { m_numThreads := 2
    m_threadsTasks :=
      [{ thread := ThreadHandle.runThread 2, task := some 2 },
       { thread := ThreadHandle.initThread, task := some 1 }]
    m_pendingTasks := []
    m_tasks := [(0, some { m_status := Status.COMPLETED, m_ID := 0,
                            m_isStopping := false }),
                (1, some (TinyTask.mkWithID 1)),
                (2, some (TinyTask.mkWithID 2))]
    m_nextFreeTaskId := 3 }

/-! ### Claim theorems: pool scheduler -/

/-- C2: the claim says an id absent from the directory makes
`SetNewLambdaForTask` return `TASK_NOT_FOUND`; the code instead dereferences
the end iterator returned by `m_tasks.find(taskID)` without comparing it to
`end()` — undefined behaviour, modelled as `none` — so the
`TASK_NOT_FOUND` return is unreachable for an absent id. Evaluated on a
pool with two threads where tasks 0 and 1 were created and id 5 was
never created. -/
theorem claim_C2_unknown_id_ub :
    runOps [PoolOp.create, PoolOp.create] fresh2 = some ([0, 1], pool2c2) ∧
    dirFind pool2c2.m_tasks 5 = none ∧
    SetNewLambdaForTask pool2c2 5 = none := by
  refine ⟨by decide, by decide, by decide⟩

/-- C5: `CreateTask` returns the current counter and bumps it by one; it
fails once the counter reaches `kMaxNumTasksInPool` (65535); from a fresh
pool, `k` successive creations return exactly `0, 1, ..., k-1`; and along
any operation sequence the returned ids are strictly increasing, hence
never reused. -/
theorem claim_C5_monotonic_ids :
    (∀ (p : TinyTasksPool) (id : Nat) (p1 : TinyTasksPool),
      CreateTask p = some (id, p1) →
        id = p.m_nextFreeTaskId ∧ p1.m_nextFreeTaskId = id + 1) ∧
    (∀ p : TinyTasksPool, constants.kMaxNumTasksInPool ≤ p.m_nextFreeTaskId →
      CreateTask p = none) ∧
    (∀ (n : Nat) (p : TinyTasksPool), mkTinyTasksPool n = some p →
      ∀ k, k ≤ constants.kMaxNumTasksInPool →
        ∃ p1, runOps (List.replicate k PoolOp.create) p =
          some (List.range k, p1)) ∧
    (∀ (ops : List PoolOp) (p : TinyTasksPool) (ids : List Nat)
        (p1 : TinyTasksPool), runOps ops p = some (ids, p1) →
      List.Pairwise (fun a b => a < b) ids) := by
  refine ⟨?_, ?_, ?_, ?_⟩
  · intro p id p1 h
    obtain ⟨h1, _, h3, _⟩ := CreateTask_cases p id p1 h
    exact ⟨h1, h3⟩
  · exact CreateTask_none_of_max
  · intro n p hmk k hk
    obtain ⟨_, _, _, _, hnext⟩ := mkTinyTasksPool_spec n p hmk
    obtain ⟨p1, hrun, _⟩ := runOps_replicate_create k p (by omega)
    rw [hnext] at hrun
    rw [List.range_eq_range']
    exact ⟨p1, hrun⟩
  · intro ops p ids p1 h
    exact (runOps_ids ops p ids p1 h).2.1

/-- C5 witness: the first creation on a fresh two-thread pool returns id 0
and leaves the counter at 1. -/
theorem claim_C5_monotonic_ids_witness :
    CreateTask fresh2 = some (0, pool2c1) ∧
    (0 = fresh2.m_nextFreeTaskId ∧ pool2c1.m_nextFreeTaskId = 0 + 1) :=
  ⟨by decide, claim_C5_monotonic_ids.1 fresh2 0 pool2c1 (by decide)⟩

/-- C6: no pool operation ever unbinds an occupied slot; once every slot is
bound (which holds after the first `ThreadCount()` creations from a fresh
pool, whatever the bound tasks' statuses), `CreateTask` appends every later
task to the pending queue and leaves the slots alone; and every operation
other than `RunPendingTasks` only ever appends to the pending queue, so the
drain is the only way out of it. -/
theorem claim_C6_slots_permanent :
    (∀ (op : PoolOp) (p : TinyTasksPool) (r : Option Nat) (p1 : TinyTasksPool),
      applyOp op p = some (r, p1) →
        ∀ (i : Nat) (s : Slot), p.m_threadsTasks[i]? = some s →
          s.task.isSome = true →
          ∃ s1 : Slot, p1.m_threadsTasks[i]? = some s1 ∧
            s1.task.isSome = true) ∧
    (∀ p : TinyTasksPool, (∀ s ∈ p.m_threadsTasks, s.task.isSome = true) →
      ∀ (id : Nat) (p1 : TinyTasksPool), CreateTask p = some (id, p1) →
        p1.m_threadsTasks = p.m_threadsTasks ∧
        p1.m_pendingTasks = p.m_pendingTasks ++ [id]) ∧
    (∀ (n : Nat) (p : TinyTasksPool), mkTinyTasksPool n = some p →
      ∀ (ids : List Nat) (p1 : TinyTasksPool),
        runOps (List.replicate n PoolOp.create) p = some (ids, p1) →
        ∀ s ∈ p1.m_threadsTasks, s.task.isSome = true) ∧
    (∀ (op : PoolOp) (p : TinyTasksPool) (r : Option Nat) (p1 : TinyTasksPool),
      op ≠ PoolOp.runPending → applyOp op p = some (r, p1) →
        ∃ l, p1.m_pendingTasks = p.m_pendingTasks ++ l) := by
  refine ⟨applyOp_slot_preserves, ?_, ?_, applyOp_pending_extends⟩
  · intro p hall id p1 h
    obtain ⟨_, _, _, _, _, hbranch⟩ := CreateTask_cases p id p1 h
    rcases hbranch with ⟨slots1, hbind, _, _⟩ | ⟨_, hslots, hpend⟩
    · have hnone := (bindFirstFree_none_iff p.m_threadsTasks id).mpr hall
      rw [hnone] at hbind
      exact Option.noConfusion hbind
    · exact ⟨hslots, hpend⟩
  · intro n p hmk ids p1 hrun s hs
    obtain ⟨_, hslots, _, _, _⟩ := mkTinyTasksPool_spec n p hmk
    have hcount := runOps_replicate_countP n p ids p1 hrun
    rw [hslots, countP_isNone_replicate] at hcount
    have hzero : p1.m_threadsTasks.countP (fun s => s.task.isNone) = 0 := by
      omega
    have hnotnone := List.countP_eq_zero.mp hzero s hs
    cases hval : s.task with
    | none => rw [hval] at hnotnone; simp at hnotnone
    | some q => rfl

/-- C6 witness: on the two-thread pool with both slots bound, a third
creation queues the new task and does not touch the slots. -/
theorem claim_C6_slots_permanent_witness :
    (∀ s ∈ pool2c2.m_threadsTasks, s.task.isSome = true) ∧
    CreateTask pool2c2 = some (2, pool2c3) ∧
    (pool2c3.m_threadsTasks = pool2c2.m_threadsTasks ∧
     pool2c3.m_pendingTasks = pool2c2.m_pendingTasks ++ [2]) :=
  ⟨by decide, by decide,
   claim_C6_slots_permanent.2.1 pool2c2 (by decide) 2 pool2c3 (by decide)⟩

/-- C7: the `RunPendingTasks` scan walks the slots in table order, refills
each finished slot from the front of the pending queue while it is
non-empty and spawns the popped task's `Run`; the started ids are exactly
the first `k` queued ids in order and the queue keeps the remainder —
strict FIFO. -/
theorem claim_C7_fifo :
    (∀ (dir : Dir) (slots : List Slot) (pending : List Nat)
        (slots1 : List Slot) (pending1 started : List Nat),
      runPendingLoop dir slots pending = some (slots1, pending1, started) →
        ∃ k, started = pending.take k ∧ pending1 = pending.drop k ∧
          slots1.length = slots.length ∧
          ∀ q ∈ started, ∃ s1 ∈ slots1, s1.task = some q ∧
            s1.thread = ThreadHandle.runThread q) ∧
    (∀ (p : TinyTasksPool) (r : Result) (p1 : TinyTasksPool),
      RunPendingTasks p = some (r, p1) →
        r = Result.SUCCEEDED ∧
        ∃ k, p1.m_pendingTasks = p.m_pendingTasks.drop k ∧
          runPendingLoop p.m_tasks p.m_threadsTasks p.m_pendingTasks =
            some (p1.m_threadsTasks, p1.m_pendingTasks,
                  p.m_pendingTasks.take k)) := by
  constructor
  · exact runPendingLoop_spec
  · intro p r p1 h
    obtain ⟨hr, _, _, _, started, hloop⟩ := RunPendingTasks_spec p r p1 h
    obtain ⟨k, hk1, hk2, _, _⟩ :=
      runPendingLoop_spec p.m_tasks p.m_threadsTasks p.m_pendingTasks
        p1.m_threadsTasks p1.m_pendingTasks started hloop
    rw [hk1] at hloop
    exact ⟨hr, k, hk2, hloop⟩

/-- C7 witness: with slot 0 completed and task 2 queued, the drain moves
task 2 to the front slot and empties the queue. -/
theorem claim_C7_fifo_witness :
    RunPendingTasks drainPool = some (Result.SUCCEEDED, drainPoolAfter) ∧
    (Result.SUCCEEDED = Result.SUCCEEDED ∧
     ∃ k, drainPoolAfter.m_pendingTasks = drainPool.m_pendingTasks.drop k ∧
       runPendingLoop drainPool.m_tasks drainPool.m_threadsTasks
           drainPool.m_pendingTasks =
         some (drainPoolAfter.m_threadsTasks, drainPoolAfter.m_pendingTasks,
               drainPool.m_pendingTasks.take k)) :=
  ⟨by decide,
   claim_C7_fifo.2 drainPool Result.SUCCEEDED drainPoolAfter (by decide)⟩

/-- C9: a pool constructed with any thread count `n` in `[2, 255]` reports
`GetNumThreads() = n`, and no pool operation ever changes that value. -/
theorem claim_C9_num_threads :
    (∀ n : Nat, 2 ≤ n → n ≤ constants.kMaxNumThreadsInPool →
      ∃ p, mkTinyTasksPool n = some p ∧ p.GetNumThreads = n) ∧
    (∀ (op : PoolOp) (p : TinyTasksPool) (r : Option Nat) (p1 : TinyTasksPool),
      applyOp op p = some (r, p1) → p1.GetNumThreads = p.GetNumThreads) := by
  constructor
  · intro n h2 h255
    unfold mkTinyTasksPool
    rw [if_neg (by omega)]
    exact ⟨_, rfl, rfl⟩
  · intro op p r p1 h
    exact applyOp_numThreads op p r p1 h

/-- C9 witness: the pool constructed with 2 threads reports 2. -/
theorem claim_C9_num_threads_witness :
    (2 ≤ 2 ∧ 2 ≤ constants.kMaxNumThreadsInPool) ∧
    ∃ p, mkTinyTasksPool 2 = some p ∧ p.GetNumThreads = 2 :=
  ⟨⟨by decide, by decide⟩, claim_C9_num_threads.1 2 (by decide) (by decide)⟩

/-- C10: the assertion guarding the slot-bound dispatch branch of
`SetNewLambdaForTask` holds in every task state (a status cannot be both
`RUNNING` and `PAUSED`), so the branch imposes no effective precondition:
dispatching onto a slot whose task is still `RUNNING` succeeds. -/
theorem claim_C10_dispatch_assert_tautology :
    (∀ t : TinyTask, dispatchAssert t = true) ∧
    dirFind runningPool.m_tasks 0 =
      some (some { m_status := Status.RUNNING, m_ID := 0,
                   m_isStopping := false }) ∧
    SetNewLambdaForTask runningPool 0 =
      some (Result.SUCCEEDED, runningPoolAfter) := by
  refine ⟨?_, by decide, by decide⟩
  intro t
  obtain ⟨st, id, stp⟩ := t
  cases st <;>
    simp [dispatchAssert, TinyTask.HasCompleted, TinyTask.IsRunning,
      TinyTask.IsPaused]

end tinytasks
